/-
A verification development for the word-association-challenge game in the
romitagl/web-games repository: the word-cycling engine of js/words.js, the
localStorage-backed StorageManager of js/storage.js, and the
progress-tracking entry points of js/game.js, embedded shallowly and
checked against the natural-language specification of the core.
-/
import Mathlib

set_option autoImplicit false

namespace WordChallenge

/- ### Association lists

JavaScript objects used as string-keyed maps are modelled as
insertion-ordered association lists with unique keys.  `alGet` is property
read (`o[k]`, `undefined` becomes `none`), `alSet` is property write
(overwrites in place or appends), `alRemove` is `delete o[k]`. -/

/-- Property read on a JS object: first entry with the key, if any. -/
def alGet {κ α : Type} [DecidableEq κ] : List (κ × α) → κ → Option α
  | [], _ => none
  | (k, v) :: rest, key => if k = key then some v else alGet rest key

/-- Property write on a JS object: replace in place, or append when absent. -/
def alSet {κ α : Type} [DecidableEq κ] : List (κ × α) → κ → α → List (κ × α)
  | [], key, v => [(key, v)]
  | (k, w) :: rest, key, v =>
      if k = key then (key, v) :: rest else (k, w) :: alSet rest key v

/-- Property deletion on a JS object: drop the first entry with the key. -/
def alRemove {κ α : Type} [DecidableEq κ] : List (κ × α) → κ → List (κ × α)
  | [], _ => []
  | (k, w) :: rest, key => if k = key then rest else (k, w) :: alRemove rest key

theorem alGet_alSet_self {κ α : Type} [DecidableEq κ] (l : List (κ × α)) (k : κ) (v : α) :
    alGet (alSet l k v) k = some v := by
  induction l with
  | nil => simp [alGet, alSet]
  | cons kv rest ih =>
      obtain ⟨k', v'⟩ := kv
      by_cases h : k' = k <;> simp [alGet, alSet, h, ih]

theorem alGet_alSet_ne {κ α : Type} [DecidableEq κ] (l : List (κ × α)) (k k' : κ) (v : α)
    (h : k' ≠ k) : alGet (alSet l k v) k' = alGet l k' := by
  induction l with
  | nil =>
      simp only [alSet, alGet]
      rw [if_neg fun hh => h hh.symm]
  | cons kv rest ih =>
      obtain ⟨k₀, v₀⟩ := kv
      by_cases h₀ : k₀ = k
      · subst h₀
        simp [alGet, alSet, Ne.symm h]
      · by_cases h₁ : k₀ = k' <;> simp [alGet, alSet, h₀, h₁, h, ih]

theorem alSet_self {κ α : Type} [DecidableEq κ] (l : List (κ × α)) (k : κ) (v : α)
    (h : alGet l k = some v) : alSet l k v = l := by
  induction l with
  | nil => simp [alGet] at h
  | cons kv rest ih =>
      obtain ⟨k', v'⟩ := kv
      by_cases hk : k' = k
      · subst hk
        simp [alGet] at h
        simp [alSet, h]
      · simp [alGet, hk] at h
        simp [alSet, hk, ih h]

theorem alGet_mem {κ α : Type} [DecidableEq κ] (l : List (κ × α)) (k : κ) (v : α)
    (h : alGet l k = some v) : (k, v) ∈ l := by
  induction l with
  | nil => simp [alGet] at h
  | cons kv rest ih =>
      obtain ⟨k', v'⟩ := kv
      by_cases hk : k' = k
      · subst hk
        simp [alGet] at h
        simp [h]
      · simp [alGet, hk] at h
        simp [ih h]

theorem alGet_eq_none_of_not_mem {κ α : Type} [DecidableEq κ] (l : List (κ × α)) (k : κ)
    (h : k ∉ l.map Prod.fst) : alGet l k = none := by
  induction l with
  | nil => rfl
  | cons kv rest ih =>
      obtain ⟨k', v'⟩ := kv
      simp only [List.map_cons, List.mem_cons, not_or] at h
      simp [alGet, show ¬ k' = k from fun hh => h.1 hh.symm, ih h.2]

theorem alGet_alRemove_self {κ α : Type} [DecidableEq κ] (l : List (κ × α)) (k : κ)
    (hnd : (l.map Prod.fst).Nodup) : alGet (alRemove l k) k = none := by
  induction l with
  | nil => rfl
  | cons kv rest ih =>
      obtain ⟨k', v'⟩ := kv
      simp only [List.map_cons, List.nodup_cons] at hnd
      by_cases hk : k' = k
      · subst hk
        simp only [alRemove, if_pos rfl]
        exact alGet_eq_none_of_not_mem rest k' hnd.1
      · simp [alRemove, hk, alGet, ih hnd.2]

/- ### Word data model (words.js)

A vocabulary entry as loaded from `data/{difficulty}/{category}.json`
(schema in the project README, checked by `validateWordData`). -/

/-- One entry of a word bank. -/
structure WordEntry where
  word : String
  pronunciation : String
  correct_definition : String
  incorrect_options : List String
deriving DecidableEq, Inhabited

/-- Per cache-key cycle state (words.js line 17): the queue of bank indices
not yet served, and the JS `Set` of served terms, modelled as its
insertion-ordered duplicate-free element list. -/
structure CycleState where
  queue : List Nat
  visited : List String
deriving DecidableEq, Inhabited

/-- `Set.prototype.add`: append unless already present. -/
def setAdd (v : List String) (s : String) : List String :=
  if s ∈ v then v else v ++ [s]

/-- `new Set(array)`: deduplicate keeping first occurrences. -/
def setFromList (l : List String) : List String := l.foldl setAdd []

/-- The cache key `"{difficulty}_{category}"` used throughout words.js. -/
def cacheKeyOf (difficulty category : String) : String :=
  difficulty ++ "_" ++ category

/-- `initCycle` (words.js lines 21-30).  `this.shuffleArray` performs a
Fisher-Yates shuffle driven by `Math.random`; the shuffle is abstracted as
the oracle `shufO`, and theorems assume only that it permutes its input,
which Fisher-Yates guarantees for every stream of random draws.  The
optional persistence step (`storage?.setCycleState`) is part of the
manager-level function below. -/
def initCycle (shufO : List Nat → List Nat) (words : List WordEntry) (reshuffle : Bool) :
    CycleState :=
  let indices := List.range words.length
  let order := if reshuffle then shufO indices else indices
  { queue := order, visited := [] }

/-- A word as handed to the game UI (`prepareWordForGame`, words.js 249-264),
with the four answer options shuffled. -/
structure PreparedWord where
  word : String
  pronunciation : String
  options : List String
  correctAnswer : String
deriving DecidableEq, Inhabited

/-- `prepareWordForGame` (words.js 249-264); the fresh Fisher-Yates shuffle
of the option array is abstracted as the oracle `optS`. -/
def prepareWordForGame (optS : List String → List String) (wordObj : WordEntry) : PreparedWord :=
  let allOptions := wordObj.correct_definition :: wordObj.incorrect_options
  { word := wordObj.word
    pronunciation := wordObj.pronunciation
    options := optS allOptions
    correctAnswer := wordObj.correct_definition }

/-- The value produced by one `getNextWord` call: `null`, the
end-of-category signal object, or a prepared word together with its `meta`
fields (words.js 202-236). -/
inductive NextResult where
  | nullResult : NextResult
  | endOfCategory (message : String) (total : Nat) (visitedCount : Nat) : NextResult
  | word (word : String) (pronunciation : String) (options : List String)
      (correctAnswer : String) (difficulty category : String)
      (remaining : Nat) (total : Nat) (isLastWord : Bool) : NextResult
deriving DecidableEq, Inhabited

/-- Whether the result is a served word. -/
def NextResult.isWord : NextResult → Bool
  | .word .. => true
  | _ => false

/-- Whether the result is the end-of-category signal. -/
def NextResult.isEnd : NextResult → Bool
  | .endOfCategory .. => true
  | _ => false

/-- The `total` field of an end-of-category signal. -/
def NextResult.endTotal : NextResult → Option Nat
  | .endOfCategory _ t _ => some t
  | _ => none

/-- The served term, when the result is a word. -/
def NextResult.termOf : NextResult → Option String
  | .word w .. => some w
  | _ => none

/-- The message of the end-of-category signal (words.js line 204). -/
def endMessage (difficulty category : String) (total : Nat) : String :=
  "All " ++ toString total ++ " words completed for " ++ difficulty ++ "/" ++ category ++ "."

/-- The body of `getNextWord` once the bank is loaded, nonempty, and the
cycle state exists (words.js lines 198-236): serve the exhaustion signal if
the queue is empty, otherwise pop the front index, mark its term visited and
build the prepared word with its meta fields.  An out-of-range front index
(impossible after `initCycle`) reproduces the JS control flow: the
`queue.shift()` has already happened when `selectedWord.word` throws, and
the surrounding catch returns `null`. -/
def getNextWordCore (optS : List String → List String) (difficulty category : String)
    (words : List WordEntry) (st : CycleState) : NextResult × CycleState :=
  match st.queue with
  | [] =>
      (.endOfCategory (endMessage difficulty category words.length)
        words.length st.visited.length, st)
  | nextIdx :: rest =>
      if nextIdx < words.length then
        let selectedWord := words.getD nextIdx default
        let visited := setAdd st.visited selectedWord.word
        let prepared := prepareWordForGame optS selectedWord
        let remaining := rest.length
        (.word prepared.word prepared.pronunciation prepared.options prepared.correctAnswer
          difficulty category remaining words.length (decide (remaining = 0)),
        { queue := rest, visited := visited })
      else
        (.nullResult, { queue := rest, visited := st.visited })

/- ### Word bank loader (words.js lines 46-156) -/

/-- The outcome of `fetch` plus `response.json()` for one bank.
`fetchError` covers a network failure, a non-ok HTTP status, and a JSON
parse failure (all reach the same catch).  `fetched none` is a parsed
document that is falsy or whose `words` field is not an array;
`fetched (some ws)` is a parsed document with `words` an array `ws`. -/
inductive FetchOutcome where
  | fetchError : FetchOutcome
  | fetched (words : Option (List WordEntry)) : FetchOutcome

/-- `validateWordData` (words.js 84-96): every entry needs truthy (for a
string: nonempty) `word`, `pronunciation` and `correct_definition`, and at
least 3 `incorrect_options`. -/
def validateWordData : Option (List WordEntry) → Bool
  | none => false
  | some ws => ws.all fun w =>
      w.word != "" && w.pronunciation != "" && w.correct_definition != "" &&
        decide (3 ≤ w.incorrect_options.length)

/-- The `easy_general` built-in sample bank (words.js 106-127). -/
def easyGeneralSamples : List WordEntry :=
  [{ word := "Happy"
     pronunciation := "/ˈhæp.i/"
     correct_definition := "Feeling joy or pleasure"
     incorrect_options :=
       ["Feeling tired and sleepy", "Feeling angry or upset", "Feeling confused or lost"] },
   { word := "Brave"
     pronunciation := "/breɪv/"
     correct_definition := "Showing courage in dangerous situations"
     incorrect_options :=
       ["Being very tall and strong", "Moving slowly and carefully", "Eating food very quickly"] }]

/-- The `medium_general` built-in sample bank (words.js 128-139). -/
def mediumGeneralSamples : List WordEntry :=
  [{ word := "Serendipity"
     pronunciation := "/ˌser·ən·dɪp·ɪ·ti/"
     correct_definition := "A pleasant surprise; finding something good unexpectedly"
     incorrect_options :=
       ["A feeling of deep sadness or melancholy",
        "The ability to speak multiple languages fluently",
        "A state of complete chaos or disorder"] }]

/-- The `hard_general` built-in sample bank (words.js 140-151). -/
def hardGeneralSamples : List WordEntry :=
  [{ word := "Ubiquitous"
     pronunciation := "/juːˈbɪk.wɪ.təs/"
     correct_definition := "Present everywhere at the same time"
     incorrect_options :=
       ["Extremely rare and valuable", "Moving in circular motions", "Related to ancient history"] }]

/-- `getSampleWords` (words.js 104-156): `sampleWords[key] || sampleWords[easy_general]`. -/
def getSampleWords (difficulty category : String) : List WordEntry :=
  let key := cacheKeyOf difficulty category
  if key = "easy_general" then easyGeneralSamples
  else if key = "medium_general" then mediumGeneralSamples
  else if key = "hard_general" then hardGeneralSamples
  else easyGeneralSamples

/-- `loadWords` (words.js 46-77) acting on the `this.words` cache: return
the cached bank if present; otherwise install the fetched bank when it
validates (success `true`), and fall back to the built-in sample bank on a
fetch error or a validation failure (success `false`). -/
def loadWords (cache : List (String × List WordEntry)) (difficulty category : String)
    (fetched : FetchOutcome) : Bool × List (String × List WordEntry) :=
  let cacheKey := cacheKeyOf difficulty category
  match alGet cache cacheKey with
  | some _ => (true, cache)
  | none =>
      match fetched with
      | .fetched (some ws) =>
          if validateWordData (some ws) then (true, alSet cache cacheKey ws)
          else (false, alSet cache cacheKey (getSampleWords difficulty category))
      | .fetched none =>
          (false, alSet cache cacheKey (getSampleWords difficulty category))
      | .fetchError =>
          (false, alSet cache cacheKey (getSampleWords difficulty category))

/- ### The word manager (words.js) -/

/-- The optional cycle-persistence hooks that words.js probes on its storage
object (`this.storage?.getCycleState`, `this.storage?.setCycleState`) over
an abstract storage content type `σ`.  A hook that the storage object does
not define is `none`. -/
structure StorageHooks (σ : Type) where
  getCycleState : Option (σ → String → Option CycleState)
  setCycleState : Option (σ → String → CycleState → σ)

/-- The StorageManager class of storage.js defines neither `getCycleState`
nor `setCycleState`, so the shipped storage object provides no hook. -/
def shippedStorageHooks (σ : Type) : StorageHooks σ :=
  { getCycleState := none, setCycleState := none }

/-- The mutable fields of a WordManager (words.js 6-18): the word cache
`this.words`, the legacy `this.usedWords` set, and the per-key
`this.cycleState`. -/
structure WordManagerState where
  words : List (String × List WordEntry)
  usedWords : List String
  cycleState : List (String × CycleState)
deriving DecidableEq, Inhabited

/-- `resetUsedWords` (words.js 462-464): clears only `this.usedWords`. -/
def resetUsedWords (m : WordManagerState) : WordManagerState :=
  { m with usedWords := [] }

/-- `getNextWord` (words.js 168-242).  The awaited fetch for an uncached
bank is the parameter `fetched`; the two shuffles are the oracles `shufO`
(index shuffle of `initCycle`) and `optS` (option shuffle of
`prepareWordForGame`).  Returns the JS return value together with the
updated manager state and storage content. -/
def getNextWord {σ : Type} (hooks : StorageHooks σ) (shufO : List Nat → List Nat)
    (optS : List String → List String) (fetched : FetchOutcome)
    (difficulty category : String) (m : WordManagerState) (store : σ) :
    NextResult × WordManagerState × σ :=
  let cacheKey := cacheKeyOf difficulty category
  -- lines 173-176: ensure words are loaded; `return null` when the load
  -- reports failure (even though a fallback bank was installed)
  let load : WordManagerState × Bool :=
    match alGet m.words cacheKey with
    | some _ => (m, true)
    | none =>
        let r := loadWords m.words difficulty category fetched
        ({ m with words := r.2 }, r.1)
  let m₁ := load.1
  if load.2 = false then (.nullResult, m₁, store)
  else
    match alGet m₁.words cacheKey with
    | none => (.nullResult, m₁, store)  -- line 179 (also covers a vanished cache entry)
    | some words =>
        if words.length = 0 then (.nullResult, m₁, store)  -- line 179
        else
          -- lines 181-196: restore the persisted cycle, or init if missing
          let ensured : WordManagerState × σ :=
            match alGet m₁.cycleState cacheKey with
            | some _ => (m₁, store)
            | none =>
                let restored : Option CycleState :=
                  match hooks.getCycleState with
                  | some g =>
                      match g store cacheKey with
                      | some saved =>
                          some { queue := saved.queue, visited := setFromList saved.visited }
                      | none => none
                  | none => none
                match restored with
                | some cs =>
                    ({ m₁ with cycleState := alSet m₁.cycleState cacheKey cs }, store)
                | none =>
                    -- initCycle (lines 21-30), including its optional persist step
                    let cs := initCycle shufO words true
                    let store₂ :=
                      match hooks.setCycleState with
                      | some f => f store cacheKey cs
                      | none => store
                    ({ m₁ with cycleState := alSet m₁.cycleState cacheKey cs }, store₂)
          let m₂ := ensured.1
          let store₂ := ensured.2
          match alGet m₂.cycleState cacheKey with
          | none => (.nullResult, m₂, store₂)  -- unreachable: the state was just ensured
          | some st =>
              let r := getNextWordCore optS difficulty category words st
              -- the in-place mutation of `state`; in the exhaustion branch
              -- `r.2 = st` and the write-back changes nothing
              let m₃ := { m₂ with cycleState := alSet m₂.cycleState cacheKey r.2 }
              -- lines 216-221: persist after a pop, when the hook exists
              let store₃ :=
                match r.1 with
                | .word .. =>
                    match hooks.setCycleState with
                    | some f => f store₂ cacheKey r.2
                    | none => store₂
                | _ => store₂
              (r.1, m₃, store₃)

/-- Iterated calls of `getNextWord` with fixed key and oracles, returning
the list of results in call order and the final manager and storage. -/
def runGetNextWord {σ : Type} (hooks : StorageHooks σ) (shufO : List Nat → List Nat)
    (optS : List String → List String) (fetched : FetchOutcome)
    (difficulty category : String) :
    Nat → WordManagerState × σ → List NextResult × WordManagerState × σ
  | 0, ms => ([], ms.1, ms.2)
  | n + 1, ms =>
      let r := getNextWord hooks shufO optS fetched difficulty category ms.1 ms.2
      let rest := runGetNextWord hooks shufO optS fetched difficulty category n (r.2.1, r.2.2)
      (r.1 :: rest.1, rest.2)

theorem alSet_alSet {κ α : Type} [DecidableEq κ] (l : List (κ × α)) (k : κ) (v w : α) :
    alSet (alSet l k v) k w = alSet l k w := by
  induction l with
  | nil => simp [alSet]
  | cons kv rest ih =>
      obtain ⟨k', v'⟩ := kv
      by_cases hk : k' = k <;> simp [alSet, hk, ih]

theorem getD_range_map {α : Type} (l : List α) (d : α) :
    (List.range l.length).map (fun i => l.getD i d) = l := by
  induction l with
  | nil => rfl
  | cons a rest ih =>
      simp only [List.length_cons, List.range_succ_eq_map, List.map_cons, List.map_map]
      have hcomp : ((fun i => (a :: rest).getD i d) ∘ Nat.succ) = fun i => rest.getD i d := by
        funext i
        simp
      rw [hcomp, ih]
      simp

/-- One `getNextWord` call with the shipped storage hooks, a cached
nonempty bank, and an existing cycle state: it acts as `getNextWordCore` on
that state and leaves the storage content untouched. -/
theorem getNextWord_shipped_step {σ : Type} (shufO : List Nat → List Nat)
    (optS : List String → List String) (fetched : FetchOutcome)
    (difficulty category : String) (m : WordManagerState) (store : σ)
    (words : List WordEntry) (st : CycleState)
    (hw : alGet m.words (cacheKeyOf difficulty category) = some words)
    (hlen : 0 < words.length)
    (hcs : alGet m.cycleState (cacheKeyOf difficulty category) = some st) :
    getNextWord (shippedStorageHooks σ) shufO optS fetched difficulty category m store =
      ((getNextWordCore optS difficulty category words st).1,
       { m with
          cycleState := alSet m.cycleState (cacheKeyOf difficulty category)
            ((getNextWordCore optS difficulty category words st).2) },
       store) := by
  have h0 : ¬ words.length = 0 := Nat.pos_iff_ne_zero.mp hlen
  unfold getNextWord
  simp only [hw, hcs, h0, shippedStorageHooks, if_false, reduceCtorEq, ite_false]
  rcases hr : (getNextWordCore optS difficulty category words st).1 <;> simp [hr]

/-- One `getNextWord` call with the shipped storage hooks, a cached
nonempty bank, and no cycle state for the key: since the shipped
StorageManager has no `getCycleState` hook, the restore branch cannot be
taken; the call initialises a fresh reshuffled cycle via `initCycle`, pops
from it, and leaves the storage content untouched. -/
theorem getNextWord_shipped_init {σ : Type} (shufO : List Nat → List Nat)
    (optS : List String → List String) (fetched : FetchOutcome)
    (difficulty category : String) (m : WordManagerState) (store : σ)
    (words : List WordEntry)
    (hw : alGet m.words (cacheKeyOf difficulty category) = some words)
    (hlen : 0 < words.length)
    (hcs : alGet m.cycleState (cacheKeyOf difficulty category) = none) :
    getNextWord (shippedStorageHooks σ) shufO optS fetched difficulty category m store =
      ((getNextWordCore optS difficulty category words (initCycle shufO words true)).1,
       { m with
          cycleState := alSet m.cycleState (cacheKeyOf difficulty category)
            ((getNextWordCore optS difficulty category words (initCycle shufO words true)).2) },
       store) := by
  have h0 : ¬ words.length = 0 := Nat.pos_iff_ne_zero.mp hlen
  unfold getNextWord
  simp only [hw, hcs, h0, shippedStorageHooks, if_false, reduceCtorEq, ite_false,
    alGet_alSet_self, alSet_alSet]
  rcases hr : (getNextWordCore optS difficulty category words (initCycle shufO words true)).1 <;>
    simp [hr]

theorem runGetNextWord_succ_eq {σ : Type} (hooks : StorageHooks σ) (shufO : List Nat → List Nat)
    (optS : List String → List String) (fetched : FetchOutcome)
    (difficulty category : String) (n : Nat) (m : WordManagerState) (store : σ) :
    runGetNextWord hooks shufO optS fetched difficulty category (n + 1) (m, store) =
      ((getNextWord hooks shufO optS fetched difficulty category m store).1 ::
        (runGetNextWord hooks shufO optS fetched difficulty category n
          ((getNextWord hooks shufO optS fetched difficulty category m store).2.1,
           (getNextWord hooks shufO optS fetched difficulty category m store).2.2)).1,
       (runGetNextWord hooks shufO optS fetched difficulty category n
          ((getNextWord hooks shufO optS fetched difficulty category m store).2.1,
           (getNextWord hooks shufO optS fetched difficulty category m store).2.2)).2) := rfl

theorem runGetNextWord_snoc {σ : Type} (hooks : StorageHooks σ) (shufO : List Nat → List Nat)
    (optS : List String → List String) (fetched : FetchOutcome)
    (difficulty category : String) :
    ∀ (n : Nat) (m : WordManagerState) (store : σ),
      runGetNextWord hooks shufO optS fetched difficulty category (n + 1) (m, store) =
        ((runGetNextWord hooks shufO optS fetched difficulty category n (m, store)).1 ++
          [(getNextWord hooks shufO optS fetched difficulty category
              (runGetNextWord hooks shufO optS fetched difficulty category n (m, store)).2.1
              (runGetNextWord hooks shufO optS fetched difficulty category n (m, store)).2.2).1],
         (getNextWord hooks shufO optS fetched difficulty category
            (runGetNextWord hooks shufO optS fetched difficulty category n (m, store)).2.1
            (runGetNextWord hooks shufO optS fetched difficulty category n (m, store)).2.2).2) := by
  intro n
  induction n with
  | zero =>
      intro m store
      simp [runGetNextWord]
  | succ k ih =>
      intro m store
      rw [runGetNextWord_succ_eq hooks shufO optS fetched difficulty category (k + 1) m store, ih,
        runGetNextWord_succ_eq hooks shufO optS fetched difficulty category k m store]
      simp

/-- Draining the whole queue of a live cycle with the shipped hooks serves
exactly the queued entries, in queue order, leaving an empty queue and an
untouched storage content. -/
theorem runGetNextWord_drain {σ : Type} (shufO : List Nat → List Nat)
    (optS : List String → List String) (fetched : FetchOutcome)
    (difficulty category : String) (words : List WordEntry) (hlen : 0 < words.length) :
    ∀ (q : List Nat) (visited : List String) (m : WordManagerState) (store : σ),
      (∀ i ∈ q, i < words.length) →
      alGet m.words (cacheKeyOf difficulty category) = some words →
      alGet m.cycleState (cacheKeyOf difficulty category) = some ⟨q, visited⟩ →
      ((runGetNextWord (shippedStorageHooks σ) shufO optS fetched difficulty category q.length
          (m, store)).1.filterMap NextResult.termOf
            = q.map fun i => (words.getD i default).word) ∧
      (∀ r ∈ (runGetNextWord (shippedStorageHooks σ) shufO optS fetched difficulty category
          q.length (m, store)).1, r.isWord = true) ∧
      (runGetNextWord (shippedStorageHooks σ) shufO optS fetched difficulty category q.length
          (m, store)).2.1.words = m.words ∧
      (∃ vis, alGet (runGetNextWord (shippedStorageHooks σ) shufO optS fetched difficulty
          category q.length (m, store)).2.1.cycleState (cacheKeyOf difficulty category)
            = some ⟨[], vis⟩) ∧
      (runGetNextWord (shippedStorageHooks σ) shufO optS fetched difficulty category q.length
          (m, store)).2.2 = store := by
  intro q
  induction q with
  | nil =>
      intro visited m store _ hw hcs
      refine ⟨rfl, ?_, rfl, ⟨visited, hcs⟩, rfl⟩
      intro r hr
      simp [runGetNextWord] at hr
  | cons i rest ih =>
      intro visited m store hq hw hcs
      have hi : i < words.length := hq i (by simp)
      have hcore : getNextWordCore optS difficulty category words ⟨i :: rest, visited⟩ =
          (NextResult.word (words.getD i default).word (words.getD i default).pronunciation
            (optS ((words.getD i default).correct_definition ::
              (words.getD i default).incorrect_options))
            (words.getD i default).correct_definition difficulty category rest.length
            words.length (decide (rest.length = 0)),
          ⟨rest, setAdd visited (words.getD i default).word⟩) := by
        simp [getNextWordCore, hi, prepareWordForGame]
      have hstep := getNextWord_shipped_step shufO optS fetched difficulty category m store words
        ⟨i :: rest, visited⟩ hw hlen hcs
      rw [hcore] at hstep
      have hrest := ih (setAdd visited (words.getD i default).word)
        { m with
            cycleState := alSet m.cycleState (cacheKeyOf difficulty category)
              ⟨rest, setAdd visited (words.getD i default).word⟩ }
        store (fun j hj => hq j (List.mem_cons_of_mem _ hj)) hw (alGet_alSet_self ..)
      rw [List.length_cons, runGetNextWord_succ_eq, hstep]
      refine ⟨?_, ?_, ?_, ?_, ?_⟩
      · simpa [NextResult.termOf] using hrest.1
      · intro r hr
        rcases List.mem_cons.mp hr with h | h
        · subst h
          rfl
        · exact hrest.2.1 r h
      · exact hrest.2.2.1
      · exact hrest.2.2.2.1
      · exact hrest.2.2.2.2

/-- C1 (amended to banks of size N ≥ 1): for a loaded bank of size N ≥ 1
and a key whose cycle has not yet started, the first N calls of
`getNextWord` each serve a word, the served terms are exactly the terms of
the bank entries (each entry exactly once, no repeats), and the (N+1)-th
call returns the end-of-category signal whose `total` field equals N. -/
theorem getNextWord_full_cycle {σ : Type} (shufO : List Nat → List Nat)
    (optS : List String → List String) (fetched : FetchOutcome)
    (difficulty category : String) (m : WordManagerState) (store : σ)
    (words : List WordEntry) (N : Nat)
    (hw : alGet m.words (cacheKeyOf difficulty category) = some words)
    (hlen : words.length = N) (hN : 0 < N)
    (hcs : alGet m.cycleState (cacheKeyOf difficulty category) = none)
    (hperm : (shufO (List.range N)).Perm (List.range N)) :
    (∀ r ∈ (runGetNextWord (shippedStorageHooks σ) shufO optS fetched difficulty category N
        (m, store)).1, r.isWord = true) ∧
    ((runGetNextWord (shippedStorageHooks σ) shufO optS fetched difficulty category N
        (m, store)).1.filterMap NextResult.termOf).Perm (words.map WordEntry.word) ∧
    (∃ message visitedCount,
      (runGetNextWord (shippedStorageHooks σ) shufO optS fetched difficulty category (N + 1)
          (m, store)).1 =
        (runGetNextWord (shippedStorageHooks σ) shufO optS fetched difficulty category N
            (m, store)).1 ++ [NextResult.endOfCategory message N visitedCount]) := by
  subst hlen
  have hlen0 : 0 < words.length := hN
  have hqueue : (initCycle shufO words true).queue = shufO (List.range words.length) := rfl
  have hq : ∀ i ∈ (initCycle shufO words true).queue, i < words.length := by
    intro i hi
    rw [hqueue] at hi
    simpa using hperm.mem_iff.mp hi
  have hql : (initCycle shufO words true).queue.length = words.length := by
    rw [hqueue, hperm.length_eq, List.length_range]
  have hbridge : ∀ n : Nat,
      runGetNextWord (shippedStorageHooks σ) shufO optS fetched difficulty category (n + 1)
        (m, store) =
      runGetNextWord (shippedStorageHooks σ) shufO optS fetched difficulty category (n + 1)
        ({ m with
            cycleState := alSet m.cycleState (cacheKeyOf difficulty category)
              (initCycle shufO words true) }, store) := by
    intro n
    rw [runGetNextWord_succ_eq, runGetNextWord_succ_eq]
    rw [getNextWord_shipped_init shufO optS fetched difficulty category m store words hw hlen0 hcs]
    rw [getNextWord_shipped_step shufO optS fetched difficulty category
      { m with
          cycleState := alSet m.cycleState (cacheKeyOf difficulty category)
            (initCycle shufO words true) }
      store words (initCycle shufO words true) hw hlen0 (alGet_alSet_self ..)]
    simp [alSet_alSet]
  have hdrain := runGetNextWord_drain shufO optS fetched difficulty category words hlen0
    (initCycle shufO words true).queue []
    { m with
        cycleState := alSet m.cycleState (cacheKeyOf difficulty category)
          (initCycle shufO words true) }
    store hq hw (alGet_alSet_self ..)
  rw [hql] at hdrain
  obtain ⟨k, hk⟩ : ∃ k, words.length = k + 1 := ⟨words.length - 1, (Nat.succ_pred_eq_of_pos hN).symm⟩
  have hRw : runGetNextWord (shippedStorageHooks σ) shufO optS fetched difficulty category
      words.length (m, store) =
      runGetNextWord (shippedStorageHooks σ) shufO optS fetched difficulty category words.length
        ({ m with
            cycleState := alSet m.cycleState (cacheKeyOf difficulty category)
              (initCycle shufO words true) }, store) := by
    rw [hk]
    exact hbridge k
  have hmapeq : (List.range words.length).map (fun i => (words.getD i default).word)
      = words.map WordEntry.word := by
    calc (List.range words.length).map (fun i => (words.getD i default).word)
        = ((List.range words.length).map (fun i => words.getD i default)).map WordEntry.word := by
          rw [List.map_map]
          rfl
      _ = words.map WordEntry.word := by rw [getD_range_map words default]
  refine ⟨?_, ?_, ?_⟩
  · rw [hRw]
    exact hdrain.2.1
  · rw [hRw, hdrain.1]
    have hpq : (initCycle shufO words true).queue.Perm (List.range words.length) := by
      rw [hqueue]
      exact hperm
    calc ((initCycle shufO words true).queue.map fun i => (words.getD i default).word).Perm
          ((List.range words.length).map fun i => (words.getD i default).word) := hpq.map _
      _ = words.map WordEntry.word := hmapeq
  · obtain ⟨vis, hvis⟩ := hdrain.2.2.2.1
    refine ⟨endMessage difficulty category words.length, vis.length, ?_⟩
    rw [hbridge words.length, hRw, runGetNextWord_snoc, hdrain.2.2.2.2]
    have hwfin : alGet (runGetNextWord (shippedStorageHooks σ) shufO optS fetched difficulty
        category words.length
        ({ m with
            cycleState := alSet m.cycleState (cacheKeyOf difficulty category)
              (initCycle shufO words true) }, store)).2.1.words
        (cacheKeyOf difficulty category) = some words := by
      rw [hdrain.2.2.1]
      exact hw
    rw [getNextWord_shipped_step shufO optS fetched difficulty category _ store words
      ⟨[], vis⟩ hwfin hlen0 hvis]
    simp [getNextWordCore]

/-- Counterexample to C1 as stated for every N: a fetched bank with zero
entries passes validation and loads successfully (so a bank of size N = 0
can be loaded for a key), yet the first call — the (N+1)-th for N = 0 —
returns null, not an end-of-category signal with total = 0. -/
theorem getNextWord_size_zero_counterexample :
    loadWords [] "easy" "general" (.fetched (some [])) = (true, [("easy_general", [])]) ∧
    (getNextWord (shippedStorageHooks Unit) id id (FetchOutcome.fetched (some []))
      "easy" "general" ⟨[("easy_general", [])], [], []⟩ ()).1 = NextResult.nullResult ∧
    ((getNextWord (shippedStorageHooks Unit) id id (FetchOutcome.fetched (some []))
      "easy" "general" ⟨[("easy_general", [])], [], []⟩ ()).1).isEnd = false :=
  ⟨by decide, by decide, by decide⟩

/-- Witness for the full-cycle theorem: the easy/general sample bank of
size 2, identity shuffle oracles, and a fresh manager. -/
theorem getNextWord_full_cycle_witness :
    (∀ r ∈ (runGetNextWord (shippedStorageHooks Unit) id id FetchOutcome.fetchError "easy"
        "general" 2 (⟨[("easy_general", easyGeneralSamples)], [], []⟩, ())).1, r.isWord = true) ∧
    ((runGetNextWord (shippedStorageHooks Unit) id id FetchOutcome.fetchError "easy" "general" 2
        (⟨[("easy_general", easyGeneralSamples)], [], []⟩, ())).1.filterMap
          NextResult.termOf).Perm (easyGeneralSamples.map WordEntry.word) ∧
    (∃ message visitedCount,
      (runGetNextWord (shippedStorageHooks Unit) id id FetchOutcome.fetchError "easy" "general"
          (2 + 1) (⟨[("easy_general", easyGeneralSamples)], [], []⟩, ())).1 =
        (runGetNextWord (shippedStorageHooks Unit) id id FetchOutcome.fetchError "easy" "general"
            2 (⟨[("easy_general", easyGeneralSamples)], [], []⟩, ())).1 ++
          [NextResult.endOfCategory message 2 visitedCount]) :=
  getNextWord_full_cycle id id FetchOutcome.fetchError "easy" "general"
    ⟨[("easy_general", easyGeneralSamples)], [], []⟩ () easyGeneralSamples 2
    (by decide) rfl (by decide) rfl (List.Perm.refl _)

/-- C9: with a nonempty bank cached for the key and an empty cycle queue,
`getNextWord` returns the end-of-category signal carrying
`total = bank.length` and `visitedCount = visited.size`, mutates neither
the manager nor the storage content, and every repeated call returns the
same signal again. -/
theorem getNextWord_exhausted_signal {σ : Type} (shufO : List Nat → List Nat)
    (optS : List String → List String) (fetched : FetchOutcome)
    (difficulty category : String) (m : WordManagerState) (store : σ)
    (words : List WordEntry) (visited : List String)
    (hw : alGet m.words (cacheKeyOf difficulty category) = some words)
    (hlen : 0 < words.length)
    (hcs : alGet m.cycleState (cacheKeyOf difficulty category) = some ⟨[], visited⟩) :
    getNextWord (shippedStorageHooks σ) shufO optS fetched difficulty category m store =
      (NextResult.endOfCategory (endMessage difficulty category words.length) words.length
        visited.length, m, store) ∧
    ∀ n, runGetNextWord (shippedStorageHooks σ) shufO optS fetched difficulty category n
        (m, store) =
      (List.replicate n (NextResult.endOfCategory (endMessage difficulty category words.length)
        words.length visited.length), m, store) := by
  have hstep := getNextWord_shipped_step shufO optS fetched difficulty category m store words
    ⟨[], visited⟩ hw hlen hcs
  have hcore : getNextWordCore optS difficulty category words ⟨[], visited⟩ =
      (NextResult.endOfCategory (endMessage difficulty category words.length) words.length
        visited.length, ⟨[], visited⟩) := rfl
  rw [hcore] at hstep
  dsimp only at hstep
  rw [alSet_self m.cycleState (cacheKeyOf difficulty category) ⟨[], visited⟩ hcs] at hstep
  have hone : getNextWord (shippedStorageHooks σ) shufO optS fetched difficulty category m
      store =
      (NextResult.endOfCategory (endMessage difficulty category words.length) words.length
        visited.length, m, store) := hstep
  refine ⟨hone, ?_⟩
  intro n
  induction n with
  | zero => rfl
  | succ k ih =>
      rw [runGetNextWord_succ_eq, hone]
      dsimp only
      rw [ih]
      simp [List.replicate_succ]

/-- Witness for the exhaustion-signal theorem: the easy/general sample bank
with both terms already visited. -/
theorem getNextWord_exhausted_signal_witness :
    getNextWord (shippedStorageHooks Unit) id id FetchOutcome.fetchError "easy" "general"
      ⟨[("easy_general", easyGeneralSamples)], [], [("easy_general", ⟨[], ["Happy", "Brave"]⟩)]⟩
      () =
      (NextResult.endOfCategory (endMessage "easy" "general" easyGeneralSamples.length)
        easyGeneralSamples.length (["Happy", "Brave"] : List String).length,
       ⟨[("easy_general", easyGeneralSamples)], [], [("easy_general", ⟨[], ["Happy", "Brave"]⟩)]⟩,
       ()) ∧
    ∀ n, runGetNextWord (shippedStorageHooks Unit) id id FetchOutcome.fetchError "easy" "general"
        n (⟨[("easy_general", easyGeneralSamples)], [],
            [("easy_general", ⟨[], ["Happy", "Brave"]⟩)]⟩, ()) =
      (List.replicate n (NextResult.endOfCategory
        (endMessage "easy" "general" easyGeneralSamples.length) easyGeneralSamples.length
        (["Happy", "Brave"] : List String).length),
       ⟨[("easy_general", easyGeneralSamples)], [], [("easy_general", ⟨[], ["Happy", "Brave"]⟩)]⟩,
       ()) :=
  getNextWord_exhausted_signal id id FetchOutcome.fetchError "easy" "general"
    ⟨[("easy_general", easyGeneralSamples)], [], [("easy_general", ⟨[], ["Happy", "Brave"]⟩)]⟩
    () easyGeneralSamples ["Happy", "Brave"] (by decide) (by decide) (by decide)

/-- C10: the shipped StorageManager defines neither `getCycleState` nor
`setCycleState`, so a `getNextWord` call on a key without in-memory cycle
state never takes the restore-from-store branch: for every storage content
it behaves exactly as a fresh `initCycle` reshuffle followed by the pop
step, and it returns the storage content unchanged (the persist step is a
no-op). -/
theorem shipped_storage_no_cycle_persistence {σ : Type} (shufO : List Nat → List Nat)
    (optS : List String → List String) (fetched : FetchOutcome)
    (difficulty category : String) (m : WordManagerState) (store : σ)
    (words : List WordEntry)
    (hw : alGet m.words (cacheKeyOf difficulty category) = some words)
    (hlen : 0 < words.length)
    (hcs : alGet m.cycleState (cacheKeyOf difficulty category) = none) :
    getNextWord (shippedStorageHooks σ) shufO optS fetched difficulty category m store =
      ((getNextWordCore optS difficulty category words (initCycle shufO words true)).1,
       { m with
          cycleState := alSet m.cycleState (cacheKeyOf difficulty category)
            ((getNextWordCore optS difficulty category words (initCycle shufO words true)).2) },
       store) :=
  getNextWord_shipped_init shufO optS fetched difficulty category m store words hw hlen hcs

/-- Witness for the no-persistence theorem: a fresh manager holding the
easy/general sample bank, with a nontrivial storage content. -/
theorem shipped_storage_no_cycle_persistence_witness :
    getNextWord (shippedStorageHooks Nat) id id FetchOutcome.fetchError "easy" "general"
      ⟨[("easy_general", easyGeneralSamples)], [], []⟩ 37 =
      ((getNextWordCore id "easy" "general" easyGeneralSamples
          (initCycle id easyGeneralSamples true)).1,
       { words := [("easy_general", easyGeneralSamples)], usedWords := [],
         cycleState := alSet [] (cacheKeyOf "easy" "general")
           ((getNextWordCore id "easy" "general" easyGeneralSamples
              (initCycle id easyGeneralSamples true)).2) },
       37) :=
  shipped_storage_no_cycle_persistence id id FetchOutcome.fetchError "easy" "general"
    ⟨[("easy_general", easyGeneralSamples)], [], []⟩ 37 easyGeneralSamples
    (by decide) (by decide) (by decide)

/-- C2 (divergence from the spec): `resetUsedWords` clears only the legacy
`usedWords` set and leaves `cycleState` (the tracking that `getNextWord`
actually consults) untouched, so the next `getNextWord` call does not
reinitialize the cycle: on an exhausted key it returns the end-of-category
signal again instead of starting a fresh shuffled queue. -/
theorem resetUsedWords_leaves_cycleState :
    (∀ m : WordManagerState, resetUsedWords m =
        { words := m.words, usedWords := [], cycleState := m.cycleState }) ∧
    (getNextWord (shippedStorageHooks Unit) id id FetchOutcome.fetchError "easy" "general"
        (resetUsedWords ⟨[("easy_general", easyGeneralSamples)], ["Happy", "Brave"],
          [("easy_general", ⟨[], ["Happy", "Brave"]⟩)]⟩) ()).1.isEnd = true := by
  refine ⟨fun m => rfl, ?_⟩
  decide

/-- C5: `loadWords` rejects a fetched bank containing an entry without a
nonempty term, pronunciation or correct definition, or with fewer than 3
incorrect options, substituting the built-in sample bank for the key and
reporting failure; a fetch failure does the same; the sample bank always
has at least one entry; and a valid fetch installs the fetched bank and
reports success. -/
theorem loadWords_validation_fallback :
    (∀ difficulty category : String, 1 ≤ (getSampleWords difficulty category).length) ∧
    (∀ (cache : List (String × List WordEntry)) (difficulty category : String)
        (ws : List WordEntry),
      alGet cache (cacheKeyOf difficulty category) = none →
      (∃ w ∈ ws, w.word = "" ∨ w.pronunciation = "" ∨ w.correct_definition = "" ∨
        w.incorrect_options.length < 3) →
      loadWords cache difficulty category (.fetched (some ws)) =
        (false, alSet cache (cacheKeyOf difficulty category)
          (getSampleWords difficulty category))) ∧
    (∀ (cache : List (String × List WordEntry)) (difficulty category : String),
      alGet cache (cacheKeyOf difficulty category) = none →
      loadWords cache difficulty category .fetchError =
        (false, alSet cache (cacheKeyOf difficulty category)
          (getSampleWords difficulty category))) ∧
    (∀ (cache : List (String × List WordEntry)) (difficulty category : String)
        (ws : List WordEntry),
      alGet cache (cacheKeyOf difficulty category) = none →
      validateWordData (some ws) = true →
      loadWords cache difficulty category (.fetched (some ws)) =
        (true, alSet cache (cacheKeyOf difficulty category) ws)) := by
  refine ⟨?_, ?_, ?_, ?_⟩
  · intro difficulty category
    simp only [getSampleWords]
    split
    · decide
    · split
      · decide
      · split
        · decide
        · decide
  · intro cache difficulty category ws hc hbad
    have hval : validateWordData (some ws) = false := by
      rw [Bool.eq_false_iff]
      intro hall
      rcases hbad with ⟨w, hwmem, hbadw⟩
      simp only [validateWordData, List.all_eq_true] at hall
      have hthis := hall w hwmem
      simp only [Bool.and_eq_true, bne_iff_ne, ne_eq, decide_eq_true_eq] at hthis
      rcases hbadw with h | h | h | h
      · exact hthis.1.1.1 h
      · exact hthis.1.1.2 h
      · exact hthis.1.2 h
      · exact absurd hthis.2 (Nat.not_le.mpr h)
    simp [loadWords, hc, hval]
  · intro cache difficulty category hc
    simp [loadWords, hc]
  · intro cache difficulty category ws hc hval
    simp [loadWords, hc, hval]

/-- A fetched entry whose term is empty, exercising the validation check. -/
def badSampleEntry : WordEntry :=
  { word := ""
    pronunciation := "x"
    correct_definition := "y"
    incorrect_options := ["a", "b", "c"] }

/-- Witness for the loader theorem: an empty-term entry is rejected for
easy/general, a fetch error falls back for hard/business, and the valid
sample list loads for easy/general. -/
theorem loadWords_validation_fallback_witness :
    1 ≤ (getSampleWords "hard" "business").length ∧
    loadWords [] "easy" "general" (.fetched (some [badSampleEntry])) =
      (false, alSet [] (cacheKeyOf "easy" "general") (getSampleWords "easy" "general")) ∧
    loadWords [] "hard" "business" .fetchError =
      (false, alSet [] (cacheKeyOf "hard" "business") (getSampleWords "hard" "business")) ∧
    loadWords [] "easy" "general" (.fetched (some easyGeneralSamples)) =
      (true, alSet [] (cacheKeyOf "easy" "general") easyGeneralSamples) :=
  ⟨loadWords_validation_fallback.1 "hard" "business",
   loadWords_validation_fallback.2.1 [] "easy" "general" [badSampleEntry] rfl (by decide),
   loadWords_validation_fallback.2.2.1 [] "hard" "business" rfl,
   loadWords_validation_fallback.2.2.2 [] "easy" "general" easyGeneralSamples rfl (by decide)⟩

/- ### Persistent store (storage.js, StorageManager)

`localStorage` holds strings.  A stored string is either the
`JSON.stringify` serialization of a JSON value (`Cell.json v`, on which
`JSON.parse` returns `v`) or a string on which `JSON.parse` throws
(`Cell.corrupt`).  Every key the StorageManager writes carries the fixed
namespace string `wordchallenge_`; `MKey.app k` stands for the full key
`wordchallenge_` ++ k, and `MKey.other f` for any key of the medium that
does not start with the namespace string. -/

/-- A JSON value; numbers are restricted to the integers the game stores. -/
inductive JsonValue where
  | jnull : JsonValue
  | jbool (b : Bool) : JsonValue
  | jnum (n : Int) : JsonValue
  | jstr (s : String) : JsonValue
  | jarr (elems : List JsonValue) : JsonValue
  | jobj (fields : List (String × JsonValue)) : JsonValue

/-- A localStorage key: namespaced (`wordchallenge_` ++ short) or foreign. -/
inductive MKey where
  | app (short : String) : MKey
  | other (full : String) : MKey
deriving DecidableEq, Inhabited

/-- Whether a key carries the `wordchallenge_` namespace. -/
def MKey.isApp : MKey → Bool
  | .app _ => true
  | .other _ => false

/-- A stored string, classified by whether `JSON.parse` succeeds on it. -/
inductive Cell where
  | json (v : JsonValue) : Cell
  | corrupt (raw : String) : Cell

/-- Whether the stored string is valid JSON. -/
def Cell.isJson : Cell → Bool
  | .json _ => true
  | .corrupt _ => false

/-- The contents of localStorage. -/
abbrev Medium := List (MKey × Cell)

/-- The StorageManager state: the availability probe result
(`this.storageAvailable`, from `checkStorageSupport`) and the medium. -/
structure StoreState where
  storageAvailable : Bool
  medium : Medium

/-- `setData` (storage.js 55-70): fail when storage is unavailable,
otherwise store `JSON.stringify(value)` under the namespaced key and
report success. -/
def setData (st : StoreState) (key : String) (value : JsonValue) : Bool × StoreState :=
  if st.storageAvailable = false then (false, st)
  else (true, { st with medium := alSet st.medium (.app key) (.json value) })

/-- `getData` (storage.js 78-96): the default when storage is unavailable
or the key is absent; otherwise `JSON.parse` of the stored string, with the
catch returning the default when the parse throws. -/
def getData (st : StoreState) (key : String) (defaultValue : JsonValue) : JsonValue :=
  if st.storageAvailable = false then defaultValue
  else
    match alGet st.medium (.app key) with
    | none => defaultValue
    | some (.json v) => v
    | some (.corrupt _) => defaultValue

/-- The per-entry mapping of `exportData` (storage.js 340-350): a
namespaced key is exported under its short key with its parsed value, or
with the raw string itself when the parse throws; foreign keys are
skipped. -/
def exportEntry : MKey × Cell → Option (String × JsonValue)
  | (.app short, .json v) => some (short, v)
  | (.app short, .corrupt raw) => some (short, .jstr raw)
  | (.other _, _) => none

/-- `exportData` (storage.js 332-357): every namespaced key, mapped to its
parsed value, or to the raw string itself when the parse throws. -/
def exportData (st : StoreState) : List (String × JsonValue) :=
  if st.storageAvailable = false then []
  else st.medium.filterMap exportEntry

/-- `importData` (storage.js 364-378): bulk `setData` over the entries. -/
def importData (st : StoreState) (data : List (String × JsonValue)) : Bool × StoreState :=
  if st.storageAvailable = false then (false, st)
  else (true, data.foldl (fun acc kv => (setData acc kv.1 kv.2).2) st)

/-- `clearAll` (storage.js 383-406): remove every namespaced key. -/
def clearAll (st : StoreState) : Bool × StoreState :=
  if st.storageAvailable = false then (false, st)
  else (true, { st with medium := st.medium.filter fun kc => !(MKey.isApp kc.1) })

/-- C6: when the storage-availability probe failed, every `setData` returns
`false` and leaves the store unchanged, and every `getData` returns the
default; and whenever the stored string under a key is not valid JSON,
`getData` returns the default instead of raising. -/
theorem store_degraded_and_corrupt_get (st : StoreState) :
    (st.storageAvailable = false →
      (∀ key value, setData st key value = (false, st)) ∧
      (∀ key defaultValue, getData st key defaultValue = defaultValue)) ∧
    (∀ key raw defaultValue, alGet st.medium (.app key) = some (.corrupt raw) →
      getData st key defaultValue = defaultValue) := by
  refine ⟨fun hun => ⟨fun key value => ?_, fun key defaultValue => ?_⟩,
    fun key raw defaultValue hcor => ?_⟩
  · simp [setData, hun]
  · simp [getData, hun]
  · by_cases hav : st.storageAvailable = false <;> simp [getData, hav, hcor]

/-- Witness for the degraded-store theorem: an unavailable store for the
no-op half, and an available store holding a corrupt string for the
parse-failure half. -/
theorem store_degraded_and_corrupt_get_witness :
    (setData ⟨false, []⟩ "totalScore" (.jnum 5) = (false, ⟨false, []⟩) ∧
      getData ⟨false, []⟩ "totalScore" (.jnum 0) = .jnum 0) ∧
    getData ⟨true, [(.app "missedWords", .corrupt "not json")]⟩ "missedWords" .jnull = .jnull :=
  ⟨⟨((store_degraded_and_corrupt_get ⟨false, []⟩).1 rfl).1 "totalScore" (.jnum 5),
    ((store_degraded_and_corrupt_get ⟨false, []⟩).1 rfl).2 "totalScore" (.jnum 0)⟩,
   (store_degraded_and_corrupt_get ⟨true, [(.app "missedWords", .corrupt "not json")]⟩).2
     "missedWords" "not json" .jnull rfl⟩

theorem alGet_filter_notApp (m : Medium) (k : String) :
    alGet (m.filter fun kc => !(MKey.isApp kc.1)) (.app k) = none := by
  induction m with
  | nil => rfl
  | cons kc rest ih =>
      obtain ⟨mk, c⟩ := kc
      rw [List.filter_cons]
      cases mk with
      | app s =>
          rw [if_neg (by simp [MKey.isApp])]
          exact ih
      | other f =>
          rw [if_pos (by simp [MKey.isApp])]
          simpa [alGet] using ih

theorem importFold_medium (L : List (String × JsonValue)) :
    ∀ (st : StoreState), st.storageAvailable = true →
      L.foldl (fun acc kv => (setData acc kv.1 kv.2).2) st =
        { storageAvailable := true,
          medium := L.foldl (fun med kv => alSet med (.app kv.1) (.json kv.2)) st.medium } := by
  induction L with
  | nil =>
      intro st h
      obtain ⟨av, med⟩ := st
      dsimp only at h
      subst h
      rfl
  | cons kv rest ih =>
      intro st h
      simp only [List.foldl_cons]
      rw [ih ((setData st kv.1 kv.2).2) (by simp [setData, h])]
      simp [setData, h]

theorem alGet_importFold (L : List (String × JsonValue)) :
    ∀ (med : Medium) (k : String), (L.map Prod.fst).Nodup →
      alGet (L.foldl (fun m kv => alSet m (.app kv.1) (.json kv.2)) med) (.app k) =
        (match alGet L k with
         | some v => some (.json v)
         | none => alGet med (.app k)) := by
  induction L with
  | nil =>
      intro med k _
      rfl
  | cons kv rest ih =>
      intro med k hnd
      obtain ⟨s, v⟩ := kv
      simp only [List.map_cons, List.nodup_cons] at hnd
      simp only [List.foldl_cons]
      rw [ih _ k hnd.2]
      by_cases hk : s = k
      · subst hk
        have hnone : alGet rest s = none := alGet_eq_none_of_not_mem rest s hnd.1
        simp [alGet, hnone, alGet_alSet_self]
      · have hne : (MKey.app k) ≠ (MKey.app s) := by
          intro hh
          exact hk (MKey.app.inj hh).symm
        rw [alGet_alSet_ne med (.app s) (.app k) (.json v) hne]
        simp [alGet, hk]

theorem alGet_exportList (m : Medium) (k : String) :
    alGet (m.filterMap exportEntry) k =
      (match alGet m (.app k) with
       | some (.json v) => some v
       | some (.corrupt raw) => some (.jstr raw)
       | none => none) := by
  induction m with
  | nil => rfl
  | cons kc rest ih =>
      obtain ⟨mk, c⟩ := kc
      cases mk with
      | app s =>
          cases c with
          | json v =>
              by_cases hk : s = k
              · subst hk
                simp [List.filterMap_cons, exportEntry, alGet]
              · simp [List.filterMap_cons, exportEntry, alGet, hk, ih]
          | corrupt raw =>
              by_cases hk : s = k
              · subst hk
                simp [List.filterMap_cons, exportEntry, alGet]
              · simp [List.filterMap_cons, exportEntry, alGet, hk, ih]
      | other f => simp [List.filterMap_cons, exportEntry, alGet, ih]

theorem exportEntry_key_mem (m : Medium) (s : String)
    (hs : s ∈ (m.filterMap exportEntry).map Prod.fst) : MKey.app s ∈ m.map Prod.fst := by
  induction m with
  | nil => simp at hs
  | cons kc rest ih =>
      obtain ⟨mk, c⟩ := kc
      cases mk with
      | app t =>
          cases c with
          | json v =>
              simp only [List.filterMap_cons, exportEntry, List.map_cons, List.mem_cons] at hs ⊢
              rcases hs with h | h
              · exact Or.inl (by rw [h])
              · exact Or.inr (ih h)
          | corrupt raw =>
              simp only [List.filterMap_cons, exportEntry, List.map_cons, List.mem_cons] at hs ⊢
              rcases hs with h | h
              · exact Or.inl (by rw [h])
              · exact Or.inr (ih h)
      | other f =>
          simp only [List.filterMap_cons, exportEntry, List.map_cons, List.mem_cons] at hs ⊢
          exact Or.inr (ih hs)

theorem exportList_keys_nodup (m : Medium) (hNd : (m.map Prod.fst).Nodup) :
    ((m.filterMap exportEntry).map Prod.fst).Nodup := by
  induction m with
  | nil => simp
  | cons kc rest ih =>
      obtain ⟨mk, c⟩ := kc
      simp only [List.map_cons, List.nodup_cons] at hNd
      cases mk with
      | app t =>
          cases c with
          | json v =>
              simp only [List.filterMap_cons, exportEntry, List.map_cons, List.nodup_cons]
              exact ⟨fun hmem => hNd.1 (exportEntry_key_mem rest t hmem), ih hNd.2⟩
          | corrupt raw =>
              simp only [List.filterMap_cons, exportEntry, List.map_cons, List.nodup_cons]
              exact ⟨fun hmem => hNd.1 (exportEntry_key_mem rest t hmem), ih hNd.2⟩
      | other f =>
          simp only [List.filterMap_cons, exportEntry]
          exact ih hNd.2

/-- C8: on an available store whose namespaced cells are all valid JSON
(the invariant of every state the ledger operations produce) with unique
keys, `exportData` followed by `clearAll` followed by `importData` of the
export restores a store on which every `getData` read returns the same
value as before the clear — in particular every scalar counter and every
map of the Stats ledger reads back unchanged. -/
theorem export_clear_import_roundtrip (st : StoreState)
    (hA : st.storageAvailable = true)
    (hJ : ∀ kc ∈ st.medium, MKey.isApp kc.1 = true → Cell.isJson kc.2 = true)
    (hNd : (st.medium.map Prod.fst).Nodup) :
    ∀ key defaultValue,
      getData (importData (clearAll st).2 (exportData st)).2 key defaultValue =
        getData st key defaultValue := by
  intro key d
  have h1 : (clearAll st).2 =
      ({ storageAvailable := st.storageAvailable,
         medium := st.medium.filter fun kc => !(MKey.isApp kc.1) } : StoreState) := by
    simp [clearAll, hA]
  have hL : exportData st = st.medium.filterMap exportEntry := by
    simp [exportData, hA]
  have hAv1 : (clearAll st).2.storageAvailable = true := by
    rw [h1]
    exact hA
  have h2 : (importData (clearAll st).2 (exportData st)).2 =
      { storageAvailable := true,
        medium := (exportData st).foldl (fun med kv => alSet med (.app kv.1) (.json kv.2))
          ((clearAll st).2.medium) } := by
    have := importFold_medium (exportData st) (clearAll st).2 hAv1
    simp only [importData, hAv1]
    simpa using this
  have hmain : alGet ((importData (clearAll st).2 (exportData st)).2).medium (.app key) =
      alGet st.medium (.app key) := by
    rw [h2]
    have hndL : ((exportData st).map Prod.fst).Nodup := by
      rw [hL]
      exact exportList_keys_nodup st.medium hNd
    rw [alGet_importFold (exportData st) ((clearAll st).2.medium) key hndL]
    rw [hL, alGet_exportList]
    rw [h1]
    rw [alGet_filter_notApp]
    cases hres : alGet st.medium (.app key) with
    | none => simp
    | some c =>
        cases c with
        | json v => simp
        | corrupt raw =>
            have hmem := hJ (MKey.app key, Cell.corrupt raw) (alGet_mem _ _ _ hres) rfl
            simp [Cell.isJson] at hmem
  have hAv2 : (importData (clearAll st).2 (exportData st)).2.storageAvailable = true := by
    rw [h2]
  simp only [getData, hAv2, hA]
  rw [hmain]

/-- Witness for the round-trip theorem: a store holding a scalar, a map and
a foreign key, read back at the scalar key. -/
theorem export_clear_import_roundtrip_witness :
    getData (importData
        (clearAll ⟨true, [(.app "totalScore", .json (.jnum 40)),
          (.app "missedWords", .json (.jobj [("Happy", .jnum 2)])),
          (.other "unrelated", .corrupt "not json")]⟩).2
        (exportData ⟨true, [(.app "totalScore", .json (.jnum 40)),
          (.app "missedWords", .json (.jobj [("Happy", .jnum 2)])),
          (.other "unrelated", .corrupt "not json")]⟩)).2 "totalScore" .jnull =
      getData ⟨true, [(.app "totalScore", .json (.jnum 40)),
        (.app "missedWords", .json (.jobj [("Happy", .jnum 2)])),
        (.other "unrelated", .corrupt "not json")]⟩ "totalScore" .jnull :=
  export_clear_import_roundtrip
    ⟨true, [(.app "totalScore", .json (.jnum 40)),
      (.app "missedWords", .json (.jobj [("Happy", .jnum 2)])),
      (.other "unrelated", .corrupt "not json")]⟩
    rfl (by decide) (by decide) "totalScore" .jnull

/- ### Progress ledger (storage.js typed view, game.js recording)

The StorageManager getters and updaters below read and write typed values
through `getData`/`setData`.  For available storage the JSON round trip is
the identity on these values, so the ledger is modelled directly on a
typed state; the degraded store (every getter yielding its default and
every setter a no-op) is covered by the `StoreState` model above. -/

/-- `Math.round` on an exact rational: round half toward positive
infinity. -/
def jsRound (q : ℚ) : ℤ := ⌊q + 1 / 2⌋

/-- A `wordAccuracy` entry `{correct, total}`. -/
structure WordAcc where
  correct : Nat
  total : Nat
deriving DecidableEq, Inhabited

/-- A `difficultyStats` entry `{correct, total, accuracy}`. -/
structure DifficultyStat where
  correct : Nat
  total : Nat
  accuracy : Int
deriving DecidableEq, Inhabited

/-- The typed contents of the namespaced store keys the ledger uses
(defaults as in `resetProgress`, storage.js 306-326). -/
structure LedgerState where
  totalScore : Int
  currentStreak : Nat
  bestStreak : Nat
  level : Nat
  totalWords : Nat
  correctAnswers : Nat
  completedWords : List String
  missedWords : List (String × Nat)
  wordAccuracy : List (String × WordAcc)
  difficultyStats : List (String × DifficultyStat)
deriving DecidableEq, Inhabited

/-- The `resetProgress` defaults (storage.js 306-326). -/
def resetLedger : LedgerState :=
  { totalScore := 0
    currentStreak := 0
    bestStreak := 0
    level := 1
    totalWords := 0
    correctAnswers := 0
    completedWords := []
    missedWords := []
    wordAccuracy := []
    difficultyStats := [] }

/-- `addCompletedWord` (storage.js 178-184): push unless present. -/
def addCompletedWord (st : LedgerState) (word : String) : LedgerState :=
  let completed := st.completedWords
  if word ∈ completed then st
  else { st with completedWords := completed ++ [word] }

/-- `addMissedWord` (storage.js 198-202): `missed[word] = (missed[word] || 0) + 1`. -/
def addMissedWord (st : LedgerState) (word : String) : LedgerState :=
  let missed := st.missedWords
  { st with missedWords := alSet missed word ((alGet missed word).getD 0 + 1) }

/-- `removeMissedWord` (storage.js 208-214): delete only when the stored
count is truthy (a stored count 0 is left in place). -/
def removeMissedWord (st : LedgerState) (word : String) : LedgerState :=
  let missed := st.missedWords
  match alGet missed word with
  | some n => if n = 0 then st else { st with missedWords := alRemove missed word }
  | none => st

/-- `updateWordAccuracy` (storage.js 229-241). -/
def updateWordAccuracy (st : LedgerState) (word : String) (correct : Bool) : LedgerState :=
  let acc₀ := (alGet st.wordAccuracy word).getD { correct := 0, total := 0 }
  let acc₁ := { acc₀ with total := acc₀.total + 1 }
  let acc₂ := if correct then { acc₁ with correct := acc₁.correct + 1 } else acc₁
  { st with wordAccuracy := alSet st.wordAccuracy word acc₂ }

/-- `updateDifficultyAccuracy` (storage.js 256-273), recomputing the
rounded accuracy percentage after the increments. -/
def updateDifficultyAccuracy (st : LedgerState) (difficulty : String) (correct : Bool) :
    LedgerState :=
  let stats₀ := (alGet st.difficultyStats difficulty).getD
    { correct := 0, total := 0, accuracy := 0 }
  let stats₁ := { stats₀ with total := stats₀.total + 1 }
  let stats₂ := if correct then { stats₁ with correct := stats₁.correct + 1 } else stats₁
  let accuracy := if 0 < stats₂.total
    then jsRound ((stats₂.correct : ℚ) / (stats₂.total : ℚ) * 100) else 0
  { st with
      difficultyStats :=
        alSet st.difficultyStats difficulty { stats₂ with accuracy := accuracy } }

/-- `getAverageAccuracy` (storage.js 279-285). -/
def getAverageAccuracy (st : LedgerState) : Int :=
  let totalWords := st.totalWords
  let correctAnswers := st.correctAnswers
  if totalWords = 0 then 0
  else jsRound ((correctAnswers : ℚ) / (totalWords : ℚ) * 100)

/-- `getWordWeights` (storage.js 291-301): an entry per missed word, with
weight `min(missCount + 1, 5)`. -/
def getWordWeights (st : LedgerState) : List (String × Nat) :=
  st.missedWords.map fun wc => (wc.1, min (wc.2 + 1) 5)

/-- `trackWordProgress` (game.js 657-679): word accuracy, difficulty
accuracy, completed list, and the missed-word bookkeeping split on the
answer. -/
def trackWordProgress (st : LedgerState) (word difficulty : String) (isCorrect : Bool) :
    LedgerState :=
  let st₁ := updateWordAccuracy st word isCorrect
  let st₂ := updateDifficultyAccuracy st₁ difficulty isCorrect
  let st₃ := addCompletedWord st₂ word
  if isCorrect then removeMissedWord st₃ word else addMissedWord st₃ word

theorem alGet_map_value {κ α β : Type} [DecidableEq κ] (l : List (κ × α)) (f : α → β) (k : κ) :
    alGet (l.map fun kv => (kv.1, f kv.2)) k = (alGet l k).map f := by
  induction l with
  | nil => rfl
  | cons kv rest ih =>
      obtain ⟨k', v⟩ := kv
      by_cases hk : k' = k <;> simp [alGet, hk, ih]

/-- C7: the average accuracy is 0 without attempts, and the rounded
percentage round(100·correct/total) otherwise; in particular 7 correct of
9 attempts gives 78. -/
theorem getAverageAccuracy_spec (st : LedgerState) :
    (st.totalWords = 0 → getAverageAccuracy st = 0) ∧
    (st.totalWords ≠ 0 →
      getAverageAccuracy st = jsRound (100 * (st.correctAnswers : ℚ) / (st.totalWords : ℚ))) ∧
    (st.totalWords = 9 → st.correctAnswers = 7 → getAverageAccuracy st = 78) := by
  refine ⟨fun h0 => ?_, fun hne => ?_, fun h9 h7 => ?_⟩
  · simp [getAverageAccuracy, h0]
  · have hq : (st.correctAnswers : ℚ) / (st.totalWords : ℚ) * 100
        = 100 * (st.correctAnswers : ℚ) / (st.totalWords : ℚ) := by ring
    simp [getAverageAccuracy, hne, hq]
  · have h78 : jsRound ((7 : ℚ) / (9 : ℚ) * 100) = 78 := by
      have hv : (7 : ℚ) / 9 * 100 + 1 / 2 = 1409 / 18 := by norm_num
      rw [jsRound, hv]
      rw [Int.floor_eq_iff]
      norm_num
    simp [getAverageAccuracy, h9, h7]
    exact h78

/-- Witness for the average-accuracy theorem: the fresh ledger has 0
accuracy, and 7 correct of 9 attempts yields 78. -/
theorem getAverageAccuracy_spec_witness :
    getAverageAccuracy resetLedger = 0 ∧
    getAverageAccuracy { resetLedger with totalWords := 9, correctAnswers := 7 } = 78 :=
  ⟨(getAverageAccuracy_spec resetLedger).1 rfl,
   (getAverageAccuracy_spec { resetLedger with totalWords := 9, correctAnswers := 7 }).2.2
     rfl rfl⟩

/-- Counterexample to C3 as stated: the word-weight query reports no entry
at all for a never-missed term, rather than the weight min(0 + 1, 5) = 1
the claim requires. -/
theorem getWordWeights_missing_for_unmissed :
    alGet (getWordWeights resetLedger) "Happy" = none ∧
    (none : Option Nat) ≠ some (min (0 + 1) 5) := by
  exact ⟨rfl, by decide⟩

/-- C3 amended: for every term present in missedWords with count m the
reported weight is min(m + 1, 5) — one more than the miss count, capped at
5 — while a never-missed term gets no entry in the reported weight map;
every reported weight is at most 5. -/
theorem getWordWeights_missed_entries (st : LedgerState) (term : String) :
    (∀ m : Nat, alGet st.missedWords term = some m →
      alGet (getWordWeights st) term = some (min (m + 1) 5)) ∧
    (alGet st.missedWords term = none → alGet (getWordWeights st) term = none) ∧
    (∀ wv ∈ getWordWeights st, wv.2 ≤ 5) := by
  refine ⟨fun m hm => ?_, fun hn => ?_, fun wv hmem => ?_⟩
  · rw [getWordWeights, alGet_map_value st.missedWords (fun n => min (n + 1) 5) term, hm]
    rfl
  · rw [getWordWeights, alGet_map_value st.missedWords (fun n => min (n + 1) 5) term, hn]
    rfl
  · simp only [getWordWeights, List.mem_map] at hmem
    obtain ⟨wc, _, hwc⟩ := hmem
    rw [← hwc]
    exact min_le_right _ _

/-- Witness for the amended weight theorem: 3 misses weigh 4, 10 misses
weigh 5, and an unmissed term is absent. -/
theorem getWordWeights_missed_entries_witness :
    alGet (getWordWeights { resetLedger with missedWords := [("Happy", 3), ("Brave", 10)] })
        "Happy" = some (min (3 + 1) 5) ∧
    alGet (getWordWeights { resetLedger with missedWords := [("Happy", 3), ("Brave", 10)] })
        "Serendipity" = none :=
  ⟨(getWordWeights_missed_entries
      { resetLedger with missedWords := [("Happy", 3), ("Brave", 10)] } "Happy").1 3 rfl,
   (getWordWeights_missed_entries
      { resetLedger with missedWords := [("Happy", 3), ("Brave", 10)] } "Serendipity").2.1
     rfl⟩

theorem addCompletedWord_eq (st : LedgerState) (w : String) :
    (addCompletedWord st w).wordAccuracy = st.wordAccuracy ∧
    (addCompletedWord st w).difficultyStats = st.difficultyStats ∧
    (addCompletedWord st w).missedWords = st.missedWords ∧
    (addCompletedWord st w).completedWords =
      (if w ∈ st.completedWords then st.completedWords else st.completedWords ++ [w]) := by
  by_cases hmem : w ∈ st.completedWords <;> simp [addCompletedWord, hmem]

theorem removeMissedWord_eq (st : LedgerState) (w : String) :
    (removeMissedWord st w).wordAccuracy = st.wordAccuracy ∧
    (removeMissedWord st w).difficultyStats = st.difficultyStats ∧
    (removeMissedWord st w).completedWords = st.completedWords := by
  cases h : alGet st.missedWords w with
  | none => simp [removeMissedWord, h]
  | some n =>
      by_cases hn : n = 0 <;> simp [removeMissedWord, h, hn]

/-- C4: one recorded answer increments `wordAccuracy[term].total` (and
`.correct` when correct), increments the difficulty tallies and recomputes
that difficulty's accuracy as round(100·correct/total), adds the term to
`completedWords` idempotently, removes it from `missedWords` when correct
(given that stored miss counts are nonzero, as every reachable ledger
has), and increments `missedWords[term]` from default 0 when incorrect. -/
theorem trackWordProgress_effects (st : LedgerState) (word difficulty : String)
    (isCorrect : Bool)
    (hmnd : (st.missedWords.map Prod.fst).Nodup)
    (hpos : alGet st.missedWords word ≠ some 0) :
    (alGet (trackWordProgress st word difficulty isCorrect).wordAccuracy word =
      some { correct := ((alGet st.wordAccuracy word).getD ⟨0, 0⟩).correct +
               (if isCorrect then 1 else 0),
             total := ((alGet st.wordAccuracy word).getD ⟨0, 0⟩).total + 1 }) ∧
    (alGet (trackWordProgress st word difficulty isCorrect).difficultyStats difficulty =
      some { correct := ((alGet st.difficultyStats difficulty).getD ⟨0, 0, 0⟩).correct +
               (if isCorrect then 1 else 0),
             total := ((alGet st.difficultyStats difficulty).getD ⟨0, 0, 0⟩).total + 1,
             accuracy := jsRound (100 *
               ((((alGet st.difficultyStats difficulty).getD ⟨0, 0, 0⟩).correct +
                 (if isCorrect then 1 else 0) : Nat) : ℚ) /
               ((((alGet st.difficultyStats difficulty).getD ⟨0, 0, 0⟩).total + 1 : Nat) : ℚ)) }) ∧
    ((trackWordProgress st word difficulty isCorrect).completedWords =
      (if word ∈ st.completedWords then st.completedWords else st.completedWords ++ [word])) ∧
    (isCorrect = true →
      alGet (trackWordProgress st word difficulty isCorrect).missedWords word = none) ∧
    (isCorrect = false →
      alGet (trackWordProgress st word difficulty isCorrect).missedWords word =
        some ((alGet st.missedWords word).getD 0 + 1)) := by
  have hms : (addCompletedWord (updateDifficultyAccuracy
      (updateWordAccuracy st word isCorrect) difficulty isCorrect) word).missedWords =
      st.missedWords :=
    (addCompletedWord_eq _ _).2.2.1
  have hwa : (addCompletedWord (updateDifficultyAccuracy
      (updateWordAccuracy st word isCorrect) difficulty isCorrect) word).wordAccuracy =
      alSet st.wordAccuracy word
        (if isCorrect
          then { correct := ((alGet st.wordAccuracy word).getD ⟨0, 0⟩).correct + 1,
                 total := ((alGet st.wordAccuracy word).getD ⟨0, 0⟩).total + 1 }
          else { correct := ((alGet st.wordAccuracy word).getD ⟨0, 0⟩).correct,
                 total := ((alGet st.wordAccuracy word).getD ⟨0, 0⟩).total + 1 }) := by
    rw [(addCompletedWord_eq _ _).1]
    cases isCorrect <;> rfl
  have hds : (addCompletedWord (updateDifficultyAccuracy
      (updateWordAccuracy st word isCorrect) difficulty isCorrect) word).difficultyStats =
      alSet st.difficultyStats difficulty
        (if isCorrect
          then { correct := ((alGet st.difficultyStats difficulty).getD ⟨0, 0, 0⟩).correct + 1,
                 total := ((alGet st.difficultyStats difficulty).getD ⟨0, 0, 0⟩).total + 1,
                 accuracy := jsRound
                   ((((alGet st.difficultyStats difficulty).getD ⟨0, 0, 0⟩).correct + 1 : Nat) /
                     ((((alGet st.difficultyStats difficulty).getD ⟨0, 0, 0⟩).total + 1 : Nat) : ℚ)
                     * 100) }
          else { correct := ((alGet st.difficultyStats difficulty).getD ⟨0, 0, 0⟩).correct,
                 total := ((alGet st.difficultyStats difficulty).getD ⟨0, 0, 0⟩).total + 1,
                 accuracy := jsRound
                   ((((alGet st.difficultyStats difficulty).getD ⟨0, 0, 0⟩).correct : Nat) /
                     ((((alGet st.difficultyStats difficulty).getD ⟨0, 0, 0⟩).total + 1 : Nat) : ℚ)
                     * 100) }) := by
    rw [(addCompletedWord_eq _ _).2.1]
    cases isCorrect
    · rw [show (updateDifficultyAccuracy (updateWordAccuracy st word false) difficulty
          false).difficultyStats =
          alSet st.difficultyStats difficulty
            { correct := ((alGet st.difficultyStats difficulty).getD ⟨0, 0, 0⟩).correct,
              total := ((alGet st.difficultyStats difficulty).getD ⟨0, 0, 0⟩).total + 1,
              accuracy := if 0 < ((alGet st.difficultyStats difficulty).getD ⟨0, 0, 0⟩).total + 1
                then jsRound
                  ((((alGet st.difficultyStats difficulty).getD ⟨0, 0, 0⟩).correct : Nat) /
                    ((((alGet st.difficultyStats difficulty).getD ⟨0, 0, 0⟩).total + 1 : Nat)
                      : ℚ) * 100)
                else 0 } from rfl]
      rw [if_pos (Nat.succ_pos _)]
      rfl
    · rw [show (updateDifficultyAccuracy (updateWordAccuracy st word true) difficulty
          true).difficultyStats =
          alSet st.difficultyStats difficulty
            { correct := ((alGet st.difficultyStats difficulty).getD ⟨0, 0, 0⟩).correct + 1,
              total := ((alGet st.difficultyStats difficulty).getD ⟨0, 0, 0⟩).total + 1,
              accuracy := if 0 < ((alGet st.difficultyStats difficulty).getD ⟨0, 0, 0⟩).total + 1
                then jsRound
                  ((((alGet st.difficultyStats difficulty).getD ⟨0, 0, 0⟩).correct + 1 : Nat) /
                    ((((alGet st.difficultyStats difficulty).getD ⟨0, 0, 0⟩).total + 1 : Nat)
                      : ℚ) * 100)
                else 0 } from rfl]
      rw [if_pos (Nat.succ_pos _)]
      rfl
  refine ⟨?_, ?_, ?_, fun hc => ?_, fun hc => ?_⟩
  · cases hc : isCorrect
    · subst hc
      show alGet (addMissedWord _ word).wordAccuracy word = _
      rw [show (addMissedWord (addCompletedWord (updateDifficultyAccuracy
        (updateWordAccuracy st word false) difficulty false) word) word).wordAccuracy =
        (addCompletedWord (updateDifficultyAccuracy (updateWordAccuracy st word false)
          difficulty false) word).wordAccuracy from rfl]
      rw [hwa]
      simp [alGet_alSet_self]
    · subst hc
      show alGet (removeMissedWord _ word).wordAccuracy word = _
      rw [(removeMissedWord_eq _ _).1, hwa]
      simp [alGet_alSet_self]
  · have hq : ∀ c t : ℚ, c / t * 100 = 100 * c / t := by
      intro c t
      ring
    cases hc : isCorrect
    · subst hc
      show alGet (addMissedWord _ word).difficultyStats difficulty = _
      rw [show (addMissedWord (addCompletedWord (updateDifficultyAccuracy
        (updateWordAccuracy st word false) difficulty false) word) word).difficultyStats =
        (addCompletedWord (updateDifficultyAccuracy (updateWordAccuracy st word false)
          difficulty false) word).difficultyStats from rfl]
      rw [hds]
      simp [alGet_alSet_self, hq]
    · subst hc
      show alGet (removeMissedWord _ word).difficultyStats difficulty = _
      rw [(removeMissedWord_eq _ _).2.1, hds]
      simp [alGet_alSet_self, hq]
  · cases hc : isCorrect
    · subst hc
      show (addMissedWord _ word).completedWords = _
      rw [show (addMissedWord (addCompletedWord (updateDifficultyAccuracy
        (updateWordAccuracy st word false) difficulty false) word) word).completedWords =
        (addCompletedWord (updateDifficultyAccuracy (updateWordAccuracy st word false)
          difficulty false) word).completedWords from rfl]
      exact (addCompletedWord_eq _ _).2.2.2
    · subst hc
      show (removeMissedWord _ word).completedWords = _
      rw [(removeMissedWord_eq _ _).2.2]
      exact (addCompletedWord_eq _ _).2.2.2
  · subst hc
    show alGet (removeMissedWord _ word).missedWords word = none
    rw [removeMissedWord]
    rw [hms]
    cases halg : alGet st.missedWords word with
    | none =>
        simp only [halg]
        rw [hms]
        exact halg
    | some n =>
        have hn : ¬ n = 0 := fun h => hpos (by rw [halg, h])
        simp only [halg, hn, if_false, ite_false]
        exact alGet_alRemove_self st.missedWords word hmnd
  · subst hc
    show alGet (addMissedWord _ word).missedWords word = _
    rw [addMissedWord]
    simp only [hms]
    exact alGet_alSet_self ..

/-- Witness for the recording theorem: a ledger where Happy was missed
twice; a correct answer removes it, an incorrect one bumps it to 3. -/
theorem trackWordProgress_effects_witness :
    alGet (trackWordProgress { resetLedger with missedWords := [("Happy", 2)] } "Happy" "easy"
      true).missedWords "Happy" = none ∧
    alGet (trackWordProgress { resetLedger with missedWords := [("Happy", 2)] } "Happy" "easy"
      false).missedWords "Happy" = some 3 ∧
    alGet (trackWordProgress { resetLedger with missedWords := [("Happy", 2)] } "Happy" "easy"
      true).wordAccuracy "Happy" = some { correct := 1, total := 1 } :=
  ⟨(trackWordProgress_effects { resetLedger with missedWords := [("Happy", 2)] } "Happy" "easy"
      true (by decide) (by decide)).2.2.2.1 rfl,
   (trackWordProgress_effects { resetLedger with missedWords := [("Happy", 2)] } "Happy" "easy"
      false (by decide) (by decide)).2.2.2.2 rfl,
   (trackWordProgress_effects { resetLedger with missedWords := [("Happy", 2)] } "Happy" "easy"
      true (by decide) (by decide)).1⟩

end WordChallenge
